import Mathlib

/-!
Verification development for the `gui-chat-protocol` package and the
Plugin Execution & Result Reconciliation Engine its specification describes.

The package itself (`src/types.ts`, `src/schema.ts`, `src/inputHandlers.ts`,
`src/vue.ts`, `src/react.ts`) consists purely of TypeScript type declarations;
those are embedded below as Lean structures and inductives, keeping the
source's field names.  The engine components (Result Store, Tool Registry,
Input Handler Router, Execution Coordinator) are declared by the specification
but have no implementation in the package; definitions for them are modelled
from the specification's words and are marked as such in their doc comments.

Conventions of the embedding:
* the TypeScript `unknown` type is embedded as `JsonValue` (all values that
  cross this protocol are JSON);
* an optional TypeScript field `f?: X` becomes `f : Option X := none`;
* generic parameters `T` (UI data) and `J` (LLM json data) are kept as Lean
  type parameters, as in the source;
* `Promise<X>` becomes `X` (the embedding is sequential);
* the handler type parameter `H` of `ToolPluginCore` is instantiated at its
  source default `InputHandler`.
-/

namespace GuiChat

/-- JSON value, the embedding of the TypeScript `unknown` slots
(`Record<string, unknown>` values, sample args, config values). -/
inductive JsonValue where
  | null : JsonValue
  | bool (b : Bool) : JsonValue
  | num (n : Int) : JsonValue
  | str (s : String) : JsonValue
  | arr (items : List JsonValue) : JsonValue
  | obj (fields : List (String × JsonValue)) : JsonValue

/-- `JsonSchemaProperty` from `src/schema.ts`: recursive JSON-Schema property
descriptor.  The TS index signature `[key: string]: unknown` is embedded as
the `extra` field. -/
inductive JsonSchemaProperty where
  | mk (type : Option String) (description : Option String)
      (enum : Option (List String))
      (items : Option JsonSchemaProperty)
      (minimum : Option Int) (maximum : Option Int)
      (minItems : Option Nat) (maxItems : Option Nat)
      (properties : Option (List (String × JsonSchemaProperty)))
      (required : Option (List String))
      (additionalProperties : Option Bool)
      (oneOf : Option (List JsonSchemaProperty))
      (extra : List (String × JsonValue)) : JsonSchemaProperty

/-- `ConfigValue` from `src/schema.ts`: `string | number | boolean | string[]`. -/
inductive ConfigValue where
  | str (s : String) : ConfigValue
  | num (n : Int) : ConfigValue
  | bool (b : Bool) : ConfigValue
  | strList (xs : List String) : ConfigValue

/-- `SelectOption` from `src/schema.ts`. -/
structure SelectOption where
  value : String
  label : String
  description : Option String := none
  disabled : Option Bool := none

/-- `ConfigFieldSchema` from `src/schema.ts`: tagged union of the five field
schema shapes (`string`/`number`/`boolean`/`select`/`multiselect`), each
carrying the `BaseFieldSchema` fields `label`/`description`/`required`. -/
inductive ConfigFieldSchema where
  | stringField (label : String) (description : Option String) (required : Option Bool)
      (placeholder : Option String) (minLength : Option Nat) (maxLength : Option Nat)
      (pattern : Option String) : ConfigFieldSchema
  | numberField (label : String) (description : Option String) (required : Option Bool)
      (min : Option Int) (max : Option Int) (step : Option Int) : ConfigFieldSchema
  | booleanField (label : String) (description : Option String)
      (required : Option Bool) : ConfigFieldSchema
  | selectField (label : String) (description : Option String) (required : Option Bool)
      (options : List SelectOption) : ConfigFieldSchema
  | multiSelectField (label : String) (description : Option String) (required : Option Bool)
      (options : List SelectOption) (minItems : Option Nat)
      (maxItems : Option Nat) : ConfigFieldSchema

/-- `PluginConfigSchema` from `src/schema.ts`. -/
structure PluginConfigSchema where
  key : String
  defaultValue : ConfigValue
  schema : ConfigFieldSchema

/-- `BackendType` from `src/types.ts`. -/
inductive BackendType where
  | textLLM | imageGen | audio | search | browse | map | mulmocast
deriving DecidableEq

/-- `ToolDefinition.parameters` from `src/types.ts` (the inline object type
with literal tag `type: "object"`). -/
structure ToolParameters where
  type : String := "object"
  properties : List (String × JsonSchemaProperty) := []
  required : List String := []
  additionalProperties : Option Bool := none

/-- `ToolDefinition` from `src/types.ts`: OpenAI-compatible function
descriptor with literal tag `type: "function"`. -/
structure ToolDefinition where
  type : String := "function"
  name : String
  description : String
  parameters : Option ToolParameters := none

/-- `ToolSample` from `src/types.ts`. -/
structure ToolSample where
  name : String
  args : List (String × JsonValue)

/-- `ToolResult` from `src/types.ts`: the value a plugin execution (or input
handler) produces.  `T` is the UI-only data type, `J` the LLM json data
type.  `toolName` and `uuid` are declared optional here, exactly as in the
source. -/
structure ToolResult (T J : Type) where
  toolName : Option String := none
  uuid : Option String := none
  message : String
  title : Option String := none
  jsonData : Option J := none
  instructions : Option String := none
  instructionsRequired : Option Bool := none
  updating : Option Bool := none
  cancelled : Option Bool := none
  data : Option T := none
  viewState : Option (List (String × JsonValue)) := none

/-- `ToolResultComplete` from `src/types.ts`: a `ToolResult` whose `toolName`
and `uuid` have been narrowed from optional to required.  All other fields
are identical to `ToolResult`. -/
structure ToolResultComplete (T J : Type) where
  toolName : String
  uuid : String
  message : String
  title : Option String := none
  jsonData : Option J := none
  instructions : Option String := none
  instructionsRequired : Option Bool := none
  updating : Option Bool := none
  cancelled : Option Bool := none
  data : Option T := none
  viewState : Option (List (String × JsonValue)) := none

/-- The TS subtyping coercion `ToolResultComplete <: ToolResult`: forgetting
that `toolName`/`uuid` are present. -/
def ToolResultComplete.toToolResult {T J : Type} (c : ToolResultComplete T J) :
    ToolResult T J :=
  { toolName := some c.toolName
    uuid := some c.uuid
    message := c.message
    title := c.title
    jsonData := c.jsonData
    instructions := c.instructions
    instructionsRequired := c.instructionsRequired
    updating := c.updating
    cancelled := c.cancelled
    data := c.data
    viewState := c.viewState }

/-- Narrowing a `ToolResult` to a `ToolResultComplete`, succeeding exactly
when both `toolName` and `uuid` are present. -/
def ToolResult.toComplete? {T J : Type} (r : ToolResult T J) :
    Option (ToolResultComplete T J) :=
  match r.toolName, r.uuid with
  | some tn, some u =>
      some { toolName := tn
             uuid := u
             message := r.message
             title := r.title
             jsonData := r.jsonData
             instructions := r.instructions
             instructionsRequired := r.instructionsRequired
             updating := r.updating
             cancelled := r.cancelled
             data := r.data
             viewState := r.viewState }
  | _, _ => none

/-- `ToolContextApp` from `src/types.ts`: config accessors plus arbitrary
named host functions (the open index signature is embedded as a name-indexed
list of JSON functions; `setConfig` is a host side effect, embedded with a
trivial codomain). -/
structure ToolContextApp where
  getConfig : String → Option JsonValue
  setConfig : String → JsonValue → Unit := fun _ _ => ()
  hostFns : List (String × (JsonValue → JsonValue)) := []

/-- `ToolContext` from `src/types.ts` (`currentResult?: ToolResult | null`
collapses to a single `Option`). -/
structure ToolContext (T J : Type) where
  currentResult : Option (ToolResult T J) := none
  app : Option ToolContextApp := none

/-- Camera capture mode from `src/inputHandlers.ts`. -/
inductive CameraMode where
  | photo | video
deriving DecidableEq

/-- `InputHandler` from `src/inputHandlers.ts`: the union of the six handler
shapes, each with its `type` tag and `handleInput` signature.  `url` and
`text` handlers carry optional `patterns`. -/
inductive InputHandler (T J : Type) where
  | file (acceptedTypes : List String)
      (handleInput : String → String → ToolResult T J) : InputHandler T J
  | clipboardImage (handleInput : String → ToolResult T J) : InputHandler T J
  | url (patterns : Option (List String))
      (handleInput : String → ToolResult T J) : InputHandler T J
  | text (patterns : Option (List String))
      (handleInput : String → ToolResult T J) : InputHandler T J
  | camera (mode : CameraMode)
      (handleInput : String → Option Nat → ToolResult T J) : InputHandler T J
  | audio (handleInput : String → Nat → ToolResult T J) : InputHandler T J

/-- `ToolPluginCore` from `src/types.ts`: the framework-agnostic plugin
interface.  `A` is the argument type, `S` the start-response type; the
handler parameter `H` is instantiated at its source default
`InputHandler`. -/
structure ToolPluginCore (T J A S : Type) where
  toolDefinition : ToolDefinition
  execute : ToolContext T J → A → ToolResult T J
  generatingMessage : String
  waitingMessage : Option String := none
  uploadMessage : Option String := none
  isEnabled : Option S → Bool
  delayAfterExecution : Option Nat := none
  systemPrompt : Option String := none
  inputHandlers : Option (List (InputHandler T J)) := none
  configSchema : Option PluginConfigSchema := none
  samples : Option (List ToolSample) := none
  backends : Option (List BackendType) := none

/-! ## Engine model

The package contains no engine implementation; everything below is modelled
from the specification (sections 4, 5 and 7) and carries a
`Modelled from the spec:` doc comment naming the missing component. -/

/-- Modelled from the spec: the error taxonomy of section 7; no error type
exists in the package. -/
inductive EngineError where
  | DuplicateToolName | UnknownTool | UnknownResult | NoHandlerForInput
  | InvalidResult | RoleNotFound | PluginExecutionFailure
deriving DecidableEq

/-- Modelled from the spec: uuid generation is unspecified beyond
"engine-generated", "strictly increasing, never-reused"; it is abstracted as
an injective encoding of the Result Store's monotone counter. -/
def genUuid (k : Nat) : String :=
  String.mk (List.replicate (k + 1) 'u')

theorem genUuid_injective : Function.Injective genUuid := by
  intro a b h
  have hl := congrArg (fun s => s.data.length) h
  simpa [genUuid] using hl

/-- First-match lookup in an association list (a `Record<string, unknown>`
embedded as a list of entries). -/
def vsLookup (m : List (String × JsonValue)) (k : String) : Option JsonValue :=
  match m with
  | [] => none
  | (k', v) :: rest => if k' = k then some v else vsLookup rest k

/-- Modelled from the spec: the key-wise `viewState` merge of
`update(uuid, partial)` (section 4.2) — existing keys keep their order and
are overwritten when the patch carries the same key; keys new in the patch
are appended. -/
def vsMerge (old patch : List (String × JsonValue)) : List (String × JsonValue) :=
  (old.map fun kv =>
    match vsLookup patch kv.1 with
    | some v => (kv.1, v)
    | none => kv)
  ++ patch.filter fun kv => (vsLookup old kv.1).isNone

/-- Modelled from the spec: the partial record accepted by
`update(uuid, partial)`.  Every `ToolResult` field may be supplied except
`toolName` and `uuid`, whose mutation the spec rejects (section 4.2); they
are therefore absent from the patch type. -/
structure ToolResultPatch (T J : Type) where
  message : Option String := none
  title : Option String := none
  jsonData : Option J := none
  instructions : Option String := none
  instructionsRequired : Option Bool := none
  updating : Option Bool := none
  cancelled : Option Bool := none
  data : Option T := none
  viewState : Option (List (String × JsonValue)) := none

/-- Modelled from the spec: merging a patch over a stored record — shallow
field replacement for every field except `viewState`, which merges key-wise;
`toolName` and `uuid` are never touched (section 4.2). -/
def applyPatch {T J : Type} (old : ToolResultComplete T J)
    (p : ToolResultPatch T J) : ToolResultComplete T J :=
  { toolName := old.toolName
    uuid := old.uuid
    message := p.message.getD old.message
    title := p.title <|> old.title
    jsonData := p.jsonData <|> old.jsonData
    instructions := p.instructions <|> old.instructions
    instructionsRequired := p.instructionsRequired <|> old.instructionsRequired
    updating := p.updating <|> old.updating
    cancelled := p.cancelled <|> old.cancelled
    data := p.data <|> old.data
    viewState :=
      match p.viewState with
      | none => old.viewState
      | some vs => some (vsMerge (old.viewState.getD []) vs) }

/-- Modelled from the spec: the Result Store (section 4.2) — the ordered
sequence of `ToolResultComplete` records plus the monotone uuid counter.
(The by-uuid index the spec mentions is a lookup optimization; lookups are
embedded directly over the sequence.) -/
structure ResultStore (T J : Type) where
  seq : List (ToolResultComplete T J) := []
  nextUuid : Nat := 0

/-- The empty Result Store. -/
def ResultStore.empty {T J : Type} : ResultStore T J := {}

/-- By-uuid lookup in the Result Store. -/
def ResultStore.find? {T J : Type} (s : ResultStore T J) (u : String) :
    Option (ToolResultComplete T J) :=
  s.seq.find? fun rc => rc.uuid = u

/-- Modelled from the spec: `append(result, toolName)` (section 4.2) —
assigns a new uuid, sets `toolName`, inserts at the end and returns the
complete record; a no-op returning nothing when `result.cancelled` is
true. -/
def ResultStore.append {T J : Type} (s : ResultStore T J) (r : ToolResult T J)
    (toolName : String) : ResultStore T J × Option (ToolResultComplete T J) :=
  if r.cancelled = some true then (s, none)
  else
    let rc : ToolResultComplete T J :=
      { toolName := toolName
        uuid := genUuid s.nextUuid
        message := r.message
        title := r.title
        jsonData := r.jsonData
        instructions := r.instructions
        instructionsRequired := r.instructionsRequired
        updating := r.updating
        cancelled := r.cancelled
        data := r.data
        viewState := r.viewState }
    ({ seq := s.seq ++ [rc], nextUuid := s.nextUuid + 1 }, some rc)

/-- Modelled from the spec: `update(uuid, partial)` (section 4.2) — fails
with `UnknownResult` when the uuid is absent, otherwise merges the patch
over the record carrying that uuid. -/
def ResultStore.update {T J : Type} (s : ResultStore T J) (u : String)
    (p : ToolResultPatch T J) : Except EngineError (ResultStore T J) :=
  if s.seq.any (fun rc => rc.uuid = u) then
    Except.ok { s with
      seq := s.seq.map fun rc => if rc.uuid = u then applyPatch rc p else rc }
  else
    Except.error EngineError.UnknownResult

/-- Modelled from the spec: the Tool Registry (section 4.1) — the
name-indexed collection of plugins, kept in registration order. -/
structure ToolRegistry (T J A S : Type) where
  plugins : List (ToolPluginCore T J A S) := []

/-- Modelled from the spec: `register(plugin)` (section 4.1) — fails with
`DuplicateToolName` when the definition's name is already present, otherwise
adds the plugin at the end of the registration order. -/
def ToolRegistry.register {T J A S : Type} (reg : ToolRegistry T J A S)
    (p : ToolPluginCore T J A S) : Except EngineError (ToolRegistry T J A S) :=
  if reg.plugins.any (fun q => q.toolDefinition.name = p.toolDefinition.name) then
    Except.error EngineError.DuplicateToolName
  else
    Except.ok { plugins := reg.plugins ++ [p] }

/-- Modelled from the spec: the scan behind `activeDefinitions` (section
4.1) — walk the registered plugins in order, evaluating each `isEnabled`
against the startResponse of this very call, keeping the definitions of the
enabled ones. -/
def activeDefinitionsList {T J A S : Type} (ps : List (ToolPluginCore T J A S))
    (sr : Option S) : List ToolDefinition :=
  match ps with
  | [] => []
  | p :: rest =>
      if p.isEnabled sr then p.toolDefinition :: activeDefinitionsList rest sr
      else activeDefinitionsList rest sr

/-- Modelled from the spec: `activeDefinitions(startResponse)` (section
4.1).  The model is a pure function of the registry and the argument, so
enablement is necessarily re-evaluated on every call, never cached. -/
def ToolRegistry.activeDefinitions {T J A S : Type} (reg : ToolRegistry T J A S)
    (sr : Option S) : List ToolDefinition :=
  activeDefinitionsList reg.plugins sr

/-- Modelled from the spec: `lookup(name)` (section 4.1). -/
def ToolRegistry.lookup {T J A S : Type} (reg : ToolRegistry T J A S)
    (name : String) : Except EngineError (ToolPluginCore T J A S) :=
  match reg.plugins.find? (fun p => p.toolDefinition.name = name) with
  | some p => Except.ok p
  | none => Except.error EngineError.UnknownTool

/-- A registry is well formed when registered names are pairwise distinct;
`register` enforces this. -/
def ToolRegistry.Wf {T J A S : Type} (reg : ToolRegistry T J A S) : Prop :=
  (reg.plugins.map fun p => p.toolDefinition.name).Nodup

/-! ### Input Handler Router -/

/-- Modelled from the spec: the raw input event kinds of section 4.3. -/
inductive InputKind where
  | file | clipboardImage | url | text | camera | audio
deriving DecidableEq

/-- Modelled from the spec: a tagged raw input event (section 6); the
payload is the string the handler would receive. -/
structure RawInputEvent where
  kind : InputKind
  payload : String

/-- The event kind a handler's `type` tag matches. -/
def InputHandler.kind {T J : Type} : InputHandler T J → InputKind
  | .file _ _ => InputKind.file
  | .clipboardImage _ => InputKind.clipboardImage
  | .url _ _ => InputKind.url
  | .text _ _ => InputKind.text
  | .camera _ _ => InputKind.camera
  | .audio _ => InputKind.audio

/-- Whether `pat` occurs as a contiguous run inside `s`. -/
def substringMatch (pat : List Char) : List Char → Bool
  | [] => pat.isEmpty
  | c :: rest => pat.isPrefixOf (c :: rest) || substringMatch pat rest

/-- Modelled from the spec: the "substring/regex-style match rules" of
section 4.3, realised over the shapes its scenario exercises — a pattern
starting with a caret anchors at the start of the payload, any other pattern
matches as a substring. -/
def patternMatches (pat payload : String) : Bool :=
  match pat.data with
  | '^' :: rest => rest.isPrefixOf payload.data
  | _ => substringMatch pat.data payload.data

/-- The optional patterns a handler declares (present only on `url` and
`text` handlers). -/
def InputHandler.patterns? {T J : Type} : InputHandler T J → Option (List String)
  | .url pats _ => pats
  | .text pats _ => pats
  | _ => none

/-- Modelled from the spec: whether a handler matches an event (section
4.3) — its `type` must match the event kind, and when patterns are present
at least one must match the payload; a handler without patterns matches
unconditionally for its kind. -/
def InputHandler.matches {T J : Type} (h : InputHandler T J)
    (ev : RawInputEvent) : Bool :=
  h.kind = ev.kind &&
    match h.patterns? with
    | none => true
    | some pats => pats.any fun pat => patternMatches pat ev.payload

/-- Modelled from the spec: the handlers of the active plugins, flattened in
registration order and tagged with the owning plugin's name (section
4.3). -/
def activeHandlers {T J A S : Type} (ps : List (ToolPluginCore T J A S)) :
    List (String × InputHandler T J) :=
  match ps with
  | [] => []
  | p :: rest =>
      ((p.inputHandlers.getD []).map fun h => (p.toolDefinition.name, h))
        ++ activeHandlers rest

/-- Modelled from the spec: the Input Handler Router (section 4.3) — first
matching handler in registration order wins; `NoHandlerForInput` when none
matches. -/
def routeInput {T J : Type} (hs : List (String × InputHandler T J))
    (ev : RawInputEvent) : Except EngineError (String × InputHandler T J) :=
  match hs.find? (fun nh => nh.2.matches ev) with
  | some nh => Except.ok nh
  | none => Except.error EngineError.NoHandlerForInput

/-! ### Execution Coordinator -/

/-- Modelled from the spec: the function-call response handed back to the
LLM channel — exactly the `message`/`jsonData`/`instructions` subset
(sections 4.4 and 6). -/
structure LlmPayload (J : Type) where
  message : String
  jsonData : Option J := none
  instructions : Option String := none
deriving DecidableEq

/-- Modelled from the spec: the synthetic user-visible failure message the
Execution Coordinator produces when recovering an error locally (section
7). -/
def syntheticFailureMessage (e : EngineError) : String :=
  match e with
  | EngineError.DuplicateToolName => "the tool failed: duplicate tool name"
  | EngineError.UnknownTool => "the tool failed: unknown tool"
  | EngineError.UnknownResult => "the tool failed: unknown result"
  | EngineError.NoHandlerForInput => "the tool failed: no handler for input"
  | EngineError.InvalidResult => "the tool failed: the plugin returned an invalid result"
  | EngineError.RoleNotFound => "the tool failed: role not found"
  | EngineError.PluginExecutionFailure => "the tool failed: plugin execution failure"

/-- Modelled from the spec: the minimal acknowledgment returned to the LLM
for a cancelled invocation (section 4.4). -/
def cancelledAckMessage : String :=
  "Operation cancelled by the user."

/-- Modelled from the spec: result validation on completion (section 4.4) —
`message` must be a non-empty string, else `InvalidResult`. -/
def validateResult {T J : Type} (r : ToolResult T J) :
    Except EngineError (ToolResult T J) :=
  if r.message = "" then Except.error EngineError.InvalidResult
  else Except.ok r

/-- Modelled from the spec: the shallow patch the coordinator derives from a
returned result when it updates an existing record (sections 4.2 and 4.4);
`toolName`/`uuid` mutation is rejected, so they are not carried over. -/
def patchOfResult {T J : Type} (r : ToolResult T J) : ToolResultPatch T J :=
  { message := some r.message
    title := r.title
    jsonData := r.jsonData
    instructions := r.instructions
    instructionsRequired := r.instructionsRequired
    updating := r.updating
    cancelled := r.cancelled
    data := r.data
    viewState := r.viewState }

/-- Modelled from the spec: the `{message, jsonData, instructions}` subset
of a result, the only part the LLM channel ever receives (section 4.4). -/
def llmPayloadOf {T J : Type} (r : ToolResult T J) : LlmPayload J :=
  { message := r.message
    jsonData := r.jsonData
    instructions := r.instructions }

/-- Modelled from the spec: the `Completed`/`Cancelled` reconciliation of
the Execution Coordinator (section 4.4): validate the returned result
(recovering `InvalidResult` into a synthetic failure message), acknowledge a
cancelled result without mutating the store, update the open target record
when `updating` is true (recovering `UnknownResult` locally), otherwise
append a new record; in every case a payload is returned to the LLM, never
an exception.  `target` is the open uuid the engine tracks for this
invocation's chain (`latestFor`, section 4.2); an `updating` result with no
open target starts a new record. -/
def reconcileResult {T J : Type} (s : ResultStore T J) (toolName : String)
    (target : Option String) (r : ToolResult T J) :
    ResultStore T J × LlmPayload J :=
  match validateResult r with
  | Except.error e => (s, { message := syntheticFailureMessage e })
  | Except.ok r =>
      if r.cancelled = some true then
        (s, { message := cancelledAckMessage })
      else
        match target with
        | some u =>
            if r.updating = some true then
              match s.update u (patchOfResult r) with
              | Except.ok s' => (s', llmPayloadOf r)
              | Except.error e => (s, { message := syntheticFailureMessage e })
            else ((s.append r toolName).1, llmPayloadOf r)
        | none => ((s.append r toolName).1, llmPayloadOf r)

/-- Modelled from the spec: the reachable Result Store states.  Per the
ownership rule of section 3, every store mutation is requested through the
Execution Coordinator, so a state is reachable exactly when it arises from
the empty store by coordinator reconciliation steps. -/
inductive ReachableStore {T J : Type} : ResultStore T J → Prop where
  | empty : ReachableStore ResultStore.empty
  | step (s : ResultStore T J) (toolName : String) (target : Option String)
      (r : ToolResult T J) : ReachableStore s →
      ReachableStore (reconcileResult s toolName target r).1

/-! ### Arrival-order mutation model (section 5) -/

/-- Modelled from the spec: a single Result Store mutation request, as the
concurrency model of section 5 queues them. -/
inductive StoreMutation (T J : Type) where
  | appendM (r : ToolResult T J) (toolName : String) : StoreMutation T J
  | updateM (uuid : String) (p : ToolResultPatch T J) : StoreMutation T J

/-- The uuid a mutation targets (`none` for an append, which targets a fresh
uuid). -/
def StoreMutation.target? {T J : Type} : StoreMutation T J → Option String
  | .appendM _ _ => none
  | .updateM u _ => some u

/-- Modelled from the spec: applying one queued mutation (section 5); a
failing update is recovered locally and leaves the store unchanged. -/
def applyMutation {T J : Type} (s : ResultStore T J) :
    StoreMutation T J → ResultStore T J
  | .appendM r name => (s.append r name).1
  | .updateM u p =>
      match s.update u p with
      | Except.ok s' => s'
      | Except.error _ => s

/-- Modelled from the spec: the single-writer-per-uuid serialization of
section 5 — queued mutations are processed strictly in arrival order. -/
def applyMutations {T J : Type} (s : ResultStore T J)
    (ms : List (StoreMutation T J)) : ResultStore T J :=
  match ms with
  | [] => s
  | m :: rest => applyMutations (applyMutation s m) rest

/-! ## Helper lemmas -/

@[simp]
theorem applyPatch_uuid {T J : Type} (rc : ToolResultComplete T J)
    (p : ToolResultPatch T J) : (applyPatch rc p).uuid = rc.uuid := rfl

@[simp]
theorem applyPatch_toolName {T J : Type} (rc : ToolResultComplete T J)
    (p : ToolResultPatch T J) : (applyPatch rc p).toolName = rc.toolName := rfl

theorem vsLookup_append (a b : List (String × JsonValue)) (k : String) :
    vsLookup (a ++ b) k =
      match vsLookup a k with
      | some v => some v
      | none => vsLookup b k := by
  induction a with
  | nil => simp [vsLookup]
  | cons kv rest ih =>
      obtain ⟨k', v⟩ := kv
      by_cases hk : k' = k <;> simp [vsLookup, hk, ih]

theorem vsLookup_filter_isNone (old p : List (String × JsonValue)) (k : String)
    (hk : vsLookup old k = none) :
    vsLookup (p.filter fun kv => (vsLookup old kv.1).isNone) k = vsLookup p k := by
  induction p with
  | nil => simp [vsLookup]
  | cons kv rest ih =>
      obtain ⟨k', v⟩ := kv
      by_cases hk' : k' = k
      · subst hk'
        simp [List.filter, hk, vsLookup]
      · by_cases hn : (vsLookup old k').isNone <;>
          simp [List.filter, hn, vsLookup, hk', ih]

theorem vsLookup_filter_of_mem_old (old p : List (String × JsonValue)) (k : String)
    (hk : vsLookup old k ≠ none) :
    vsLookup (p.filter fun kv => (vsLookup old kv.1).isNone) k = none := by
  induction p with
  | nil => simp [vsLookup]
  | cons kv rest ih =>
      obtain ⟨k', v⟩ := kv
      by_cases hk' : k' = k
      · subst hk'
        have : ¬ (vsLookup old k').isNone = true := by
          simpa [Option.isNone_iff_eq_none] using hk
        simp [List.filter, this, ih]
      · by_cases hn : (vsLookup old k').isNone <;>
          simp [List.filter, hn, vsLookup, hk', ih]

theorem vsLookup_map_patchKeys (old p : List (String × JsonValue)) (k : String) :
    vsLookup (old.map fun kv =>
        match vsLookup p kv.1 with
        | some v => (kv.1, v)
        | none => kv) k =
      match vsLookup old k with
      | some v =>
          match vsLookup p k with
          | some w => some w
          | none => some v
      | none => none := by
  induction old with
  | nil => simp [vsLookup]
  | cons kv rest ih =>
      obtain ⟨k', v⟩ := kv
      by_cases hk : k' = k
      · subst hk
        cases hp : vsLookup p k' <;> simp [vsLookup, hp]
      · cases hp : vsLookup p k' <;> simp [vsLookup, hp, hk, ih]

/-- The key-wise merge, characterised by lookup: a key carried by the patch
takes the patch's value; any other key keeps the existing value. -/
theorem vsLookup_vsMerge (old p : List (String × JsonValue)) (k : String) :
    vsLookup (vsMerge old p) k =
      match vsLookup p k with
      | some v => some v
      | none => vsLookup old k := by
  rw [vsMerge, vsLookup_append, vsLookup_map_patchKeys]
  cases ho : vsLookup old k with
  | some v =>
      cases hp : vsLookup p k <;> simp
  | none =>
      rw [vsLookup_filter_isNone old p k ho]
      cases hp : vsLookup p k <;> simp

theorem seq_map_patch_find? {T J : Type} (l : List (ToolResultComplete T J))
    (u : String) (p : ToolResultPatch T J) :
    ((l.map fun rc => if rc.uuid = u then applyPatch rc p else rc).find?
        fun rc => rc.uuid = u)
      = (l.find? fun rc => rc.uuid = u).map fun rc => applyPatch rc p := by
  induction l with
  | nil => simp
  | cons rc rest ih =>
      by_cases hu : rc.uuid = u
      · simp [List.find?, hu]
      · simp [List.find?, hu, ih]

theorem seq_map_patch_uuids {T J : Type} (l : List (ToolResultComplete T J))
    (u : String) (p : ToolResultPatch T J) :
    ((l.map fun rc => if rc.uuid = u then applyPatch rc p else rc).map
        fun rc => rc.uuid)
      = l.map fun rc => rc.uuid := by
  rw [List.map_map]
  refine List.map_congr_left fun rc _ => ?_
  by_cases hu : rc.uuid = u <;> simp [hu]

theorem update_ok_of_find?_some {T J : Type} (s : ResultStore T J) (u : String)
    (rc : ToolResultComplete T J) (h : s.find? u = some rc)
    (p : ToolResultPatch T J) :
    s.update u p = Except.ok
        { s with seq := s.seq.map fun rc' =>
            if rc'.uuid = u then applyPatch rc' p else rc' } := by
  have hmem : rc ∈ s.seq ∧ rc.uuid = u := by
    have h1 := List.find?_some h
    have h2 := List.mem_of_find?_eq_some h
    exact ⟨h2, by simpa using h1⟩
  have hany : s.seq.any (fun rc' => rc'.uuid = u) = true := by
    simp only [List.any_eq_true]
    exact ⟨rc, hmem.1, by simp [hmem.2]⟩
  simp [ResultStore.update, hany]

theorem update_error_of_find?_none {T J : Type} (s : ResultStore T J) (u : String)
    (h : s.find? u = none) (p : ToolResultPatch T J) :
    s.update u p = Except.error EngineError.UnknownResult := by
  have hany : s.seq.any (fun rc' => rc'.uuid = u) = false := by
    rw [List.any_eq_false]
    intro rc hrc
    have := List.find?_eq_none.mp h rc hrc
    simpa using this
  simp [ResultStore.update, hany]

theorem find?_update {T J : Type} (s : ResultStore T J) (u : String)
    (rc : ToolResultComplete T J) (h : s.find? u = some rc)
    (p : ToolResultPatch T J) (s' : ResultStore T J)
    (h' : s.update u p = Except.ok s') :
    s'.find? u = some (applyPatch rc p) := by
  rw [update_ok_of_find?_some s u rc h p] at h'
  have hs' : s' = { s with seq := s.seq.map fun rc' =>
      if rc'.uuid = u then applyPatch rc' p else rc' } := by
    injection h' with h''
    exact h''.symm
  subst hs'
  show ((s.seq.map fun rc' => if rc'.uuid = u then applyPatch rc' p else rc').find?
      fun rc' => rc'.uuid = u) = some (applyPatch rc p)
  rw [seq_map_patch_find?]
  rw [ResultStore.find?] at h
  simp [h]

theorem update_uuids {T J : Type} (s : ResultStore T J) (u : String)
    (p : ToolResultPatch T J) (s' : ResultStore T J)
    (h : s.update u p = Except.ok s') :
    (s'.seq.map fun rc => rc.uuid) = (s.seq.map fun rc => rc.uuid)
      ∧ s'.nextUuid = s.nextUuid := by
  rw [ResultStore.update] at h
  split at h
  · injection h with h'
    subst h'
    exact ⟨seq_map_patch_uuids s.seq u p, rfl⟩
  · cases h

/-! ## Store invariants -/

/-- Bookkeeping invariant of the Result Store: the stored uuids are, in
order, the encodings of `0, 1, …, length - 1`, and the counter sits one past
the last assigned key. -/
def StoreInv {T J : Type} (s : ResultStore T J) : Prop :=
  s.nextUuid = s.seq.length
    ∧ (s.seq.map fun rc => rc.uuid) = (List.range s.seq.length).map genUuid

/-- No stored record is cancelled. -/
def NoCancelledStored {T J : Type} (s : ResultStore T J) : Prop :=
  ∀ rc ∈ s.seq, rc.cancelled ≠ some true

theorem storeInv_empty {T J : Type} : StoreInv (ResultStore.empty (T := T) (J := J)) := by
  constructor <;> simp [ResultStore.empty]

theorem storeInv_append {T J : Type} (s : ResultStore T J) (hs : StoreInv s)
    (r : ToolResult T J) (name : String) :
    StoreInv (s.append r name).1 := by
  obtain ⟨hn, hu⟩ := hs
  rw [ResultStore.append]
  split
  · exact ⟨hn, hu⟩
  · refine ⟨by simp [hn], ?_⟩
    simp only [List.map_append, List.length_append, List.map_cons, List.map_nil,
      List.length_cons, List.length_nil]
    rw [hu, List.range_succ, List.map_append, hn]
    simp

theorem storeInv_update {T J : Type} (s : ResultStore T J) (hs : StoreInv s)
    (u : String) (p : ToolResultPatch T J) (s' : ResultStore T J)
    (h : s.update u p = Except.ok s') : StoreInv s' := by
  obtain ⟨hn, hseq⟩ := hs
  obtain ⟨hu, hnext⟩ := update_uuids s u p s' h
  have hlen : s'.seq.length = s.seq.length := by
    have := congrArg List.length hu
    simpa using this
  exact ⟨by rw [hnext, hlen, hn], by rw [hu, hlen, hseq]⟩

theorem storeInv_reconcile {T J : Type} (s : ResultStore T J) (hs : StoreInv s)
    (name : String) (target : Option String) (r : ToolResult T J) :
    StoreInv (reconcileResult s name target r).1 := by
  rw [reconcileResult]
  cases hv : validateResult r with
  | error e => exact hs
  | ok r' =>
      simp only
      split
      · exact hs
      · cases target with
        | some u =>
            simp only
            split
            · cases hup : s.update u (patchOfResult r') with
              | ok s' => simp only [hup]; exact storeInv_update s hs u _ s' hup
              | error e => simp only [hup]; exact hs
            · exact storeInv_append s hs r' name
        | none => exact storeInv_append s hs r' name

theorem reachable_storeInv {T J : Type} (s : ResultStore T J)
    (h : ReachableStore s) : StoreInv s := by
  induction h with
  | empty => exact storeInv_empty
  | step s name target r _ ih => exact storeInv_reconcile s ih name target r

theorem noCancelled_append {T J : Type} (s : ResultStore T J)
    (hs : NoCancelledStored s) (r : ToolResult T J) (name : String)
    (hr : r.cancelled ≠ some true) :
    NoCancelledStored (s.append r name).1 := by
  rw [ResultStore.append]
  split
  · exact hs
  · intro rc hrc
    simp only [List.mem_append, List.mem_singleton] at hrc
    rcases hrc with hrc | hrc
    · exact hs rc hrc
    · subst hrc
      simpa using hr

theorem noCancelled_update {T J : Type} (s : ResultStore T J)
    (hs : NoCancelledStored s) (u : String) (p : ToolResultPatch T J)
    (hp : p.cancelled ≠ some true) (s' : ResultStore T J)
    (h : s.update u p = Except.ok s') : NoCancelledStored s' := by
  rw [ResultStore.update] at h
  split at h
  · injection h with h'
    subst h'
    intro rc hrc
    simp only [List.mem_map] at hrc
    obtain ⟨rc', hrc', hrceq⟩ := hrc
    subst hrceq
    by_cases hu : rc'.uuid = u
    · simp only [hu, if_pos]
      show (applyPatch rc' p).cancelled ≠ some true
      have : (applyPatch rc' p).cancelled = (p.cancelled <|> rc'.cancelled) := rfl
      rw [this]
      cases hc : p.cancelled with
      | none => simpa using hs rc' hrc'
      | some b =>
          rw [hc] at hp
          simpa using hp
    · simpa [hu] using hs rc' hrc'
  · cases h

theorem noCancelled_reconcile {T J : Type} (s : ResultStore T J)
    (hs : NoCancelledStored s) (name : String) (target : Option String)
    (r : ToolResult T J) :
    NoCancelledStored (reconcileResult s name target r).1 := by
  rw [reconcileResult]
  cases hv : validateResult r with
  | error e => exact hs
  | ok r' =>
      have hrr : r' = r := by
        rw [validateResult] at hv
        split at hv
        · cases hv
        · injection hv with h
          exact h.symm
      subst hrr
      simp only
      split
      · exact hs
      · rename_i hc
        cases target with
        | some u =>
            simp only
            split
            · cases hup : s.update u (patchOfResult r') with
              | ok s' =>
                  simp only [hup]
                  refine noCancelled_update s hs u _ ?_ s' hup
                  simpa [patchOfResult] using hc
              | error e => simp only [hup]; exact hs
            · exact noCancelled_append s hs r' name hc
        | none => exact noCancelled_append s hs r' name hc

theorem reachable_noCancelled {T J : Type} (s : ResultStore T J)
    (h : ReachableStore s) : NoCancelledStored s := by
  induction h with
  | empty => intro rc hrc; simp [ResultStore.empty] at hrc
  | step s name target r _ ih => exact noCancelled_reconcile s ih name target r

/-! ## Concrete example values (used by the witnesses) -/

/-- The quiz scenario result of the spec's testable properties. -/
def exResult : ToolResult Nat Nat :=
  { message := "Q1 ready", data := some 4 }

/-- A user-cancelled result. -/
def exCancelledResult : ToolResult Nat Nat :=
  { message := "x", cancelled := some true }

/-- A follow-up result for the same chain. -/
def exResult2 : ToolResult Nat Nat :=
  { message := "Answer recorded", data := some 7 }

/-- The store after reconciling `exResult` into the empty store. -/
def exStore1 : ResultStore Nat Nat :=
  (reconcileResult ResultStore.empty ("quiz") none exResult).1

theorem exStore1_reachable : ReachableStore exStore1 :=
  ReachableStore.step ResultStore.empty ("quiz") none exResult
    ReachableStore.empty

/-- The single record `exStore1` holds. -/
def exRecord1 : ToolResultComplete Nat Nat :=
  { toolName := "quiz", uuid := genUuid 0, message := "Q1 ready", data := some 4 }

theorem exStore1_seq : exStore1.seq = [exRecord1] := rfl

/-- The record a further append to `exStore1` would create. -/
def exRecord2 : ToolResultComplete Nat Nat :=
  { toolName := "quiz", uuid := genUuid 1, message := "Answer recorded",
    data := some 7 }

/-! ## Claims -/

/-- C1: for every reachable Result Store state, every stored record is a
`ToolResultComplete` — seen back as a `ToolResult`, both `toolName` and
`uuid` are present — and no stored record has `cancelled` set to true;
`append` of a result whose `cancelled` flag is true is a no-op that returns
nothing and leaves the store unchanged. -/
theorem resultStore_no_cancelled_invariant {T J : Type} (s : ResultStore T J)
    (hs : ReachableStore s) :
    (∀ rc ∈ s.seq, rc.toToolResult.toolName.isSome
        ∧ rc.toToolResult.uuid.isSome ∧ rc.cancelled ≠ some true)
    ∧ (∀ (r : ToolResult T J) (name : String), r.cancelled = some true →
        s.append r name = (s, none)) := by
  constructor
  · intro rc hrc
    refine ⟨?_, ?_, reachable_noCancelled s hs rc hrc⟩
    · simp [ToolResultComplete.toToolResult]
    · simp [ToolResultComplete.toToolResult]
  · intro r name h
    simp [ResultStore.append, h]

theorem resultStore_no_cancelled_invariant_witness :
    exRecord1.cancelled ≠ some true
    ∧ exStore1.append exCancelledResult ("quiz") = (exStore1, none) := by
  have h := resultStore_no_cancelled_invariant exStore1 exStore1_reachable
  refine ⟨(h.1 exRecord1 ?_).2.2, h.2 exCancelledResult ("quiz") rfl⟩
  rw [exStore1_seq]
  exact List.mem_singleton_self _

/-- C7: in every reachable Result Store state the stored uuids are, in
append order, the encodings of a strictly increasing key sequence; a
successful append yields a record whose uuid is fresh — never reused — and
places it at the end; and `update` never changes or reorders the stored
uuid sequence. -/
theorem resultStore_uuid_fresh_and_ordered {T J : Type} (s : ResultStore T J)
    (hs : ReachableStore s) :
    (∃ ks : List Nat, List.Pairwise (· < ·) ks
        ∧ (s.seq.map fun rc => rc.uuid) = ks.map genUuid)
    ∧ (∀ (r : ToolResult T J) (name : String) (rc : ToolResultComplete T J),
        (s.append r name).2 = some rc →
          rc.uuid ∉ (s.seq.map fun rc' => rc'.uuid)
          ∧ (s.append r name).1.seq = s.seq ++ [rc])
    ∧ (∀ (u : String) (p : ToolResultPatch T J) (s' : ResultStore T J),
        s.update u p = Except.ok s' →
          (s'.seq.map fun rc => rc.uuid) = (s.seq.map fun rc => rc.uuid)) := by
  obtain ⟨hn, hu⟩ := reachable_storeInv s hs
  refine ⟨⟨List.range s.seq.length, List.pairwise_lt_range _, hu⟩, ?_, ?_⟩
  · intro r name rc happ
    rw [ResultStore.append] at happ
    split at happ
    · cases happ
    · simp only [Option.some.injEq] at happ
      subst happ
      constructor
      · intro hmem
        rw [hu] at hmem
        simp only [List.mem_map, List.mem_range] at hmem
        obtain ⟨k, hk, hke⟩ := hmem
        have := genUuid_injective hke
        omega
      · rw [ResultStore.append]
        split
        · rename_i hcon
          rename_i hncon
          exact absurd hcon hncon
        · rfl
  · intro u p s' hup
    exact (update_uuids s u p s' hup).1

theorem resultStore_uuid_fresh_and_ordered_witness :
    exRecord2.uuid ∉ (exStore1.seq.map fun rc => rc.uuid)
    ∧ (exStore1.append exResult2 ("quiz")).1.seq = exStore1.seq ++ [exRecord2] :=
  (resultStore_uuid_fresh_and_ordered exStore1 exStore1_reachable).2.1
    exResult2 ("quiz") exRecord2 rfl

/-- Updating a present uuid succeeds and patches exactly that record. -/
theorem update_ok_exists {T J : Type} (s : ResultStore T J) (u : String)
    (rc : ToolResultComplete T J) (h : s.find? u = some rc)
    (p : ToolResultPatch T J) :
    ∃ s', s.update u p = Except.ok s'
      ∧ s'.find? u = some (applyPatch rc p) :=
  ⟨_, update_ok_of_find?_some s u rc h p,
    find?_update s u rc h p _ (update_ok_of_find?_some s u rc h p)⟩

/-- The spec's first viewState patch: `{viewState: {a: 1}}`. -/
def patchA {T J : Type} : ToolResultPatch T J :=
  { viewState := some [(("a"), JsonValue.num 1)] }

/-- The spec's second viewState patch: `{viewState: {b: 2}}`. -/
def patchB {T J : Type} : ToolResultPatch T J :=
  { viewState := some [(("b"), JsonValue.num 2)] }

/-- C3: `update(uuid, partial)` merges the patch over the existing record
with shallow field replacement for every field except `viewState`, which
merges key-wise; updating `{viewState: {a: 1}}` then `{viewState: {b: 2}}`
yields a stored viewState carrying both `a = 1` and `b = 2`; and `update`
fails with `UnknownResult` when the uuid is absent. -/
theorem resultStore_update_merge_spec {T J : Type} (s : ResultStore T J)
    (u : String) :
    (s.find? u = none → ∀ p : ToolResultPatch T J,
        s.update u p = Except.error EngineError.UnknownResult)
    ∧ (∀ rc, s.find? u = some rc → ∀ p, ∃ s',
        s.update u p = Except.ok s' ∧ s'.find? u = some (applyPatch rc p))
    ∧ (∀ (rc : ToolResultComplete T J) (p : ToolResultPatch T J),
        (applyPatch rc p).message = p.message.getD rc.message
        ∧ (applyPatch rc p).data = (p.data <|> rc.data)
        ∧ (applyPatch rc p).jsonData = (p.jsonData <|> rc.jsonData)
        ∧ (applyPatch rc p).toolName = rc.toolName
        ∧ (applyPatch rc p).uuid = rc.uuid)
    ∧ (∀ (rc : ToolResultComplete T J) (p : ToolResultPatch T J) vs k,
        p.viewState = some vs →
        vsLookup ((applyPatch rc p).viewState.getD []) k =
          match vsLookup vs k with
          | some v => some v
          | none => vsLookup (rc.viewState.getD []) k)
    ∧ (∀ rc, s.find? u = some rc → ∃ s₁ s₂,
        s.update u patchA = Except.ok s₁
        ∧ s₁.update u patchB = Except.ok s₂
        ∧ ∀ rc₂, s₂.find? u = some rc₂ →
            vsLookup (rc₂.viewState.getD []) ("a") = some (JsonValue.num 1)
            ∧ vsLookup (rc₂.viewState.getD []) ("b") = some (JsonValue.num 2)) := by
  refine ⟨?_, ?_, ?_, ?_, ?_⟩
  · intro h p
    exact update_error_of_find?_none s u h p
  · intro rc h p
    exact update_ok_exists s u rc h p
  · intro rc p
    exact ⟨rfl, rfl, rfl, rfl, rfl⟩
  · intro rc p vs k hp
    have hv : (applyPatch rc p).viewState
        = some (vsMerge (rc.viewState.getD []) vs) := by
      simp [applyPatch, hp]
    rw [hv]
    simpa using vsLookup_vsMerge (rc.viewState.getD []) vs k
  · intro rc h
    obtain ⟨s₁, hu₁, hf₁⟩ := update_ok_exists s u rc h patchA
    obtain ⟨s₂, hu₂, hf₂⟩ := update_ok_exists s₁ u _ hf₁ patchB
    refine ⟨s₁, s₂, hu₁, hu₂, fun rc₂ hrc₂ => ?_⟩
    rw [hf₂] at hrc₂
    injection hrc₂ with he
    subst he
    have hv : (applyPatch (applyPatch rc patchA) patchB).viewState
        = some (vsMerge (vsMerge (rc.viewState.getD [])
            [(("a"), JsonValue.num 1)]) [(("b"), JsonValue.num 2)]) := rfl
    rw [hv]
    constructor
    · show vsLookup (vsMerge (vsMerge (rc.viewState.getD [])
          [(("a"), JsonValue.num 1)]) [(("b"), JsonValue.num 2)]) ("a")
          = some (JsonValue.num 1)
      rw [vsLookup_vsMerge, vsLookup_vsMerge]
      rfl
    · show vsLookup (vsMerge (vsMerge (rc.viewState.getD [])
          [(("a"), JsonValue.num 1)]) [(("b"), JsonValue.num 2)]) ("b")
          = some (JsonValue.num 2)
      rw [vsLookup_vsMerge]
      rfl

theorem resultStore_update_merge_spec_witness :
    vsLookup ((applyPatch (applyPatch exRecord1 patchA) patchB).viewState.getD [])
        ("a") = some (JsonValue.num 1)
    ∧ vsLookup ((applyPatch (applyPatch exRecord1 patchA) patchB).viewState.getD [])
        ("b") = some (JsonValue.num 2)
    ∧ exStore1.update ("zz") patchA = Except.error EngineError.UnknownResult := by
  have h := resultStore_update_merge_spec exStore1 (genUuid 0)
  have h4 := h.2.2.2.1
  have hzz := (resultStore_update_merge_spec exStore1 ("zz")).1 rfl patchA
  refine ⟨?_, ?_, hzz⟩
  · rw [h4 (applyPatch exRecord1 patchA) patchB [(("b"), JsonValue.num 2)] ("a") rfl]
    rw [show vsLookup [(("b"), JsonValue.num 2)] ("a") = none from rfl]
    rw [h4 exRecord1 patchA [(("a"), JsonValue.num 1)] ("a") rfl]
    rfl
  · rw [h4 (applyPatch exRecord1 patchA) patchB [(("b"), JsonValue.num 2)] ("b") rfl]
    rfl

theorem activeDefinitionsList_eq {T J A S : Type}
    (ps : List (ToolPluginCore T J A S)) (sr : Option S) :
    activeDefinitionsList ps sr
      = (ps.filter fun p => p.isEnabled sr).map fun p => p.toolDefinition := by
  induction ps with
  | nil => rfl
  | cons p rest ih =>
      by_cases hp : p.isEnabled sr <;>
        simp [activeDefinitionsList, List.filter_cons, hp, ih]

/-- An always-enabled quiz plugin. -/
def exPluginOn : ToolPluginCore Nat Nat Nat Nat :=
  { toolDefinition := { name := "quiz", description := "quiz tool" }
    execute := fun _ _ => exResult
    generatingMessage := "generating"
    isEnabled := fun _ => true }

/-- A registered but disabled plugin. -/
def exPluginOff : ToolPluginCore Nat Nat Nat Nat :=
  { toolDefinition := { name := "map", description := "map tool" }
    execute := fun _ _ => exResult
    generatingMessage := "generating"
    isEnabled := fun _ => false }

/-- A registry holding the two example plugins, in that order. -/
def exRegistry : ToolRegistry Nat Nat Nat Nat :=
  { plugins := [exPluginOn, exPluginOff] }

/-- C2: `activeDefinitions(startResponse)` returns, in registration order,
exactly the definition of each registered plugin whose `isEnabled` returns
true on this call's startResponse; it never includes a definition whose
`isEnabled` currently returns false; and the result is a pure function of
the registry and the startResponse of this very call, so enablement is
re-evaluated per call, never cached. -/
theorem toolRegistry_activeDefinitions_spec {T J A S : Type}
    (reg : ToolRegistry T J A S) (sr : Option S) :
    reg.activeDefinitions sr
      = ((reg.plugins.filter fun p => p.isEnabled sr).map fun p => p.toolDefinition)
    ∧ (∀ d, d ∈ reg.activeDefinitions sr ↔
        ∃ p ∈ reg.plugins, p.isEnabled sr = true ∧ p.toolDefinition = d)
    ∧ (reg.activeDefinitions sr).Sublist (reg.plugins.map fun p => p.toolDefinition)
    ∧ (reg.Wf → ∀ p ∈ reg.plugins, p.isEnabled sr = false →
        p.toolDefinition ∉ reg.activeDefinitions sr) := by
  have heq := activeDefinitionsList_eq reg.plugins sr
  refine ⟨heq, ?_, ?_, ?_⟩
  · intro d
    rw [ToolRegistry.activeDefinitions, heq]
    constructor
    · intro hd
      simp only [List.mem_map, List.mem_filter] at hd
      obtain ⟨p, ⟨hp, hen⟩, hde⟩ := hd
      exact ⟨p, hp, hen, hde⟩
    · rintro ⟨p, hp, hen, hde⟩
      simp only [List.mem_map, List.mem_filter]
      exact ⟨p, ⟨hp, hen⟩, hde⟩
  · rw [ToolRegistry.activeDefinitions, heq]
    exact (List.filter_sublist _).map _
  · intro hwf p hp hdis hmem
    rw [ToolRegistry.activeDefinitions, heq] at hmem
    simp only [List.mem_map, List.mem_filter] at hmem
    obtain ⟨q, ⟨hq, hen⟩, hde⟩ := hmem
    have hname : q.toolDefinition.name = p.toolDefinition.name :=
      congrArg ToolDefinition.name hde
    have : q = p := List.inj_on_of_nodup_map hwf hq hp hname
    subst this
    rw [hdis] at hen
    cases hen

theorem toolRegistry_activeDefinitions_spec_witness :
    exRegistry.activeDefinitions none
      = ((exRegistry.plugins.filter fun p => p.isEnabled none).map
          fun p => p.toolDefinition)
    ∧ exPluginOff.toolDefinition ∉ exRegistry.activeDefinitions none := by
  have h := toolRegistry_activeDefinitions_spec exRegistry none
  refine ⟨h.1, h.2.2.2 ?_ exPluginOff ?_ rfl⟩
  · show (exRegistry.plugins.map fun p => p.toolDefinition.name).Nodup
    rw [show (exRegistry.plugins.map fun p => p.toolDefinition.name)
        = [("quiz"), ("map")] from rfl]
    decide
  · simp [exRegistry]

/-- A successful `find?` splits the list at the first satisfying element. -/
theorem find?_first_split {α : Type} (p : α → Bool) (l : List α) (a : α)
    (h : l.find? p = some a) :
    ∃ pre post, l = pre ++ a :: post ∧ ∀ b ∈ pre, p b = false := by
  induction l with
  | nil => cases h
  | cons x rest ih =>
      cases hp : p x with
      | true =>
          rw [List.find?_cons_of_pos _ hp] at h
          injection h with h'
          subst h'
          exact ⟨[], rest, rfl, by simp⟩
      | false =>
          rw [List.find?_cons_of_neg _ (by simp [hp])] at h
          obtain ⟨pre, post, hl, hpre⟩ := ih h
          refine ⟨x :: pre, post, by rw [hl]; rfl, ?_⟩
          intro b hb
          rcases List.mem_cons.mp hb with hb | hb
          · subst hb; exact hp
          · exact hpre b hb

/-- The spec scenario's url handler with pattern `^https://maps`. -/
def exUrlHandler : InputHandler Nat Nat :=
  InputHandler.url (some [("^https://maps")]) fun _ => exResult

/-- The handler list of the scenario, owned by plugin `maps`. -/
def exHandlers : List (String × InputHandler Nat Nat) :=
  [(("maps"), exUrlHandler)]

/-- A url event the pattern matches. -/
def exUrlEventHit : RawInputEvent :=
  { kind := InputKind.url, payload := "https://maps.example/x" }

/-- A url event the pattern does not match. -/
def exUrlEventMiss : RawInputEvent :=
  { kind := InputKind.url, payload := "https://other.example" }

/-- C4: the Input Handler Router invokes at most one handler — it selects
the first handler in registration order whose kind matches the event and
whose patterns, when present, have at least one pattern matching the
payload (a handler without patterns matches unconditionally for its kind);
when no handler matches, it fails with `NoHandlerForInput` and the event is
dropped. -/
theorem inputRouter_first_match_spec {T J : Type}
    (hs : List (String × InputHandler T J)) (ev : RawInputEvent) :
    (∀ nh, routeInput hs ev = Except.ok nh →
        nh.2.matches ev = true
        ∧ ∃ pre post, hs = pre ++ nh :: post
            ∧ ∀ mh ∈ pre, mh.2.matches ev = false)
    ∧ (routeInput hs ev = Except.error EngineError.NoHandlerForInput ↔
        ∀ nh ∈ hs, nh.2.matches ev = false)
    ∧ (∀ h : InputHandler T J, h.patterns? = none →
        (h.matches ev = true ↔ h.kind = ev.kind))
    ∧ (∀ (h : InputHandler T J) pats, h.patterns? = some pats →
        (h.matches ev = true ↔ (h.kind = ev.kind
          ∧ ∃ pat ∈ pats, patternMatches pat ev.payload = true))) := by
  refine ⟨?_, ?_, ?_, ?_⟩
  · intro nh hok
    cases hf : hs.find? (fun nh' => nh'.2.matches ev) with
    | none => rw [routeInput, hf] at hok; cases hok
    | some nh' =>
        rw [routeInput, hf] at hok
        injection hok with h'
        subst h'
        refine ⟨by simpa using List.find?_some hf, ?_⟩
        exact find?_first_split _ hs nh' hf
  · constructor
    · intro herr nh hnh
      cases hf : hs.find? (fun nh' => nh'.2.matches ev) with
      | none =>
          have := List.find?_eq_none.mp hf nh hnh
          simpa using this
      | some nh' => rw [routeInput, hf] at herr; cases herr
    · intro hall
      cases hf : hs.find? (fun nh' => nh'.2.matches ev) with
      | none => rw [routeInput, hf]
      | some nh' =>
          have h1 := List.find?_some hf
          have h2 := List.mem_of_find?_eq_some hf
          rw [hall nh' h2] at h1
          cases h1
  · intro h hpat
    simp [InputHandler.matches, hpat]
  · intro h pats hpat
    simp [InputHandler.matches, hpat, List.any_eq_true]

theorem inputRouter_first_match_spec_witness :
    (("maps"), exUrlHandler).2.matches exUrlEventHit = true
    ∧ routeInput exHandlers exUrlEventMiss
        = Except.error EngineError.NoHandlerForInput := by
  constructor
  · exact ((inputRouter_first_match_spec exHandlers exUrlEventHit).1
      (("maps"), exUrlHandler) rfl).1
  · refine (inputRouter_first_match_spec exHandlers exUrlEventMiss).2.1.mpr ?_
    intro nh hnh
    rw [show nh = (("maps"), exUrlHandler) by
      simpa [exHandlers] using hnh]
    rfl

/-- A malformed plugin result: its `message` is not a non-empty string. -/
def exInvalidResult : ToolResult Nat Nat :=
  { message := "", data := some 9 }

theorem find?_isSome_any {T J : Type} (s : ResultStore T J) (u : String) :
    (s.find? u).isSome = true ↔ s.seq.any (fun rc => rc.uuid = u) = true := by
  simp [ResultStore.find?, List.find?_isSome, List.any_eq_true]

/-- C5: on completion, the returned result is validated — its `message`
must be a non-empty string; a result lacking one fails with
`InvalidResult`, and that failure is recovered locally into a synthetic
failure message returned to the LLM while the store is left untouched,
rather than propagated (`reconcileResult` is total and always returns a
payload). -/
theorem coordinator_invalid_result_recovered {T J : Type} (s : ResultStore T J)
    (name : String) (target : Option String) (r : ToolResult T J) :
    (r.message = "" →
      validateResult r = Except.error EngineError.InvalidResult
      ∧ reconcileResult s name target r
          = (s, { message := syntheticFailureMessage EngineError.InvalidResult }))
    ∧ (r.message ≠ "" → validateResult r = Except.ok r)
    ∧ syntheticFailureMessage EngineError.InvalidResult ≠ "" := by
  refine ⟨?_, ?_, by decide⟩
  · intro h
    have hv : validateResult r = Except.error EngineError.InvalidResult := by
      simp [validateResult, h]
    refine ⟨hv, ?_⟩
    rw [reconcileResult, hv]
  · intro h
    simp [validateResult, h]

theorem coordinator_invalid_result_recovered_witness :
    validateResult exInvalidResult = Except.error EngineError.InvalidResult
    ∧ reconcileResult exStore1 ("quiz") none exInvalidResult
        = (exStore1,
            { message := syntheticFailureMessage EngineError.InvalidResult }) :=
  (coordinator_invalid_result_recovered exStore1 ("quiz") none
    exInvalidResult).1 rfl

/-- C6: the payload returned to the LLM channel is exactly the
`{message, jsonData, instructions}` subset of the result and never depends
on `data` or `viewState` — two runs whose results differ only in `data` and
`viewState` hand the LLM identical payloads — and conversely the UI-only
`data` slot of the stored record is exactly the result's `data`, never
influenced by `message`, `jsonData` or `instructions`. -/
theorem llm_channel_noninterference {T J : Type} (s : ResultStore T J)
    (name : String) (target : Option String) (r : ToolResult T J) :
    (∀ (d : Option T) (vs : Option (List (String × JsonValue))),
        (reconcileResult s name target { r with data := d, viewState := vs }).2
          = (reconcileResult s name target r).2)
    ∧ (r.message ≠ "" → r.cancelled ≠ some true →
        (∀ u, target = some u → r.updating = some true → (s.find? u).isSome) →
        (reconcileResult s name target r).2 = llmPayloadOf r)
    ∧ (∀ (m : String) (j : Option J) (i : Option String),
        ((s.append { r with message := m, jsonData := j, instructions := i }
            name).2.map fun rc => rc.data)
          = ((s.append r name).2.map fun rc => rc.data))
    ∧ (∀ rc, (s.append r name).2 = some rc →
        rc.data = r.data ∧ rc.viewState = r.viewState) := by
  refine ⟨?_, ?_, ?_, ?_⟩
  · intro d vs
    by_cases hm : r.message = ""
    · simp [reconcileResult, validateResult, hm]
    · by_cases hc : r.cancelled = some true
      · simp [reconcileResult, validateResult, hm, hc]
      · cases target with
        | none => simp [reconcileResult, validateResult, hm, hc, llmPayloadOf]
        | some u =>
            by_cases hupd : r.updating = some true
            · cases hany : s.seq.any (fun rc => rc.uuid = u) with
              | true =>
                  simp [reconcileResult, validateResult, ResultStore.update,
                    hm, hc, hupd, hany, llmPayloadOf]
              | false =>
                  simp [reconcileResult, validateResult, ResultStore.update,
                    hm, hc, hupd, hany]
            · simp [reconcileResult, validateResult, hm, hc, hupd, llmPayloadOf]
  · intro hm hc htarget
    cases target with
    | none => simp [reconcileResult, validateResult, hm, hc, llmPayloadOf]
    | some u =>
        by_cases hupd : r.updating = some true
        · have hany := (find?_isSome_any s u).mp (htarget u rfl hupd)
          simp [reconcileResult, validateResult, ResultStore.update,
            hm, hc, hupd, hany, llmPayloadOf]
        · simp [reconcileResult, validateResult, hm, hc, hupd, llmPayloadOf]
  · intro m j i
    by_cases hc : r.cancelled = some true <;> simp [ResultStore.append, hc]
  · intro rc h
    rw [ResultStore.append] at h
    split at h
    · cases h
    · simp only [Option.some.injEq] at h
      subst h
      exact ⟨rfl, rfl⟩

theorem llm_channel_noninterference_witness :
    (reconcileResult exStore1 ("quiz") none exResult).2 = llmPayloadOf exResult := by
  refine (llm_channel_noninterference exStore1 ("quiz") none exResult).2.1
    (by decide) (by decide) ?_
  intro u hu _
  cases hu

theorem any_uuid_update {T J : Type} (l : List (ToolResultComplete T J))
    (u u' : String) (p : ToolResultPatch T J) :
    ((l.map fun rc => if rc.uuid = u then applyPatch rc p else rc).any
        fun rc => rc.uuid = u')
      = l.any fun rc => rc.uuid = u' := by
  induction l with
  | nil => rfl
  | cons rc rest ih =>
      by_cases hu : rc.uuid = u <;> simp [hu, ih]

/-- C8: queued Result Store mutations are processed strictly in arrival
order — the final state of two mutations equals applying them sequentially
in that order; two updates racing on the same stored uuid compose (the
second one's merge observes the first one's completed state, so no update
is lost); and updates to different uuids are independent — they commute, so
they may proceed in parallel. -/
theorem resultStore_arrival_order_serialization {T J : Type}
    (s : ResultStore T J) :
    (∀ m₁ m₂ : StoreMutation T J,
        applyMutations s [m₁, m₂] = applyMutation (applyMutation s m₁) m₂)
    ∧ (∀ (u : String) (p₁ p₂ : ToolResultPatch T J) rc, s.find? u = some rc →
        ∃ s₁ s₂, s.update u p₁ = Except.ok s₁ ∧ s₁.update u p₂ = Except.ok s₂
          ∧ s₂.find? u = some (applyPatch (applyPatch rc p₁) p₂))
    ∧ (∀ (u₁ u₂ : String) (p₁ p₂ : ToolResultPatch T J), u₁ ≠ u₂ →
        applyMutation (applyMutation s (StoreMutation.updateM u₁ p₁))
            (StoreMutation.updateM u₂ p₂)
          = applyMutation (applyMutation s (StoreMutation.updateM u₂ p₂))
              (StoreMutation.updateM u₁ p₁)) := by
  have hupd_err : ∀ (st : ResultStore T J) (u : String) (p : ToolResultPatch T J),
      st.seq.any (fun rc => rc.uuid = u) = false →
      applyMutation st (StoreMutation.updateM u p) = st := by
    intro st u p h
    simp [applyMutation, ResultStore.update, h]
  have hupd_ok : ∀ (st : ResultStore T J) (u : String) (p : ToolResultPatch T J),
      st.seq.any (fun rc => rc.uuid = u) = true →
      applyMutation st (StoreMutation.updateM u p)
        = { st with seq := st.seq.map fun rc =>
            if rc.uuid = u then applyPatch rc p else rc } := by
    intro st u p h
    simp [applyMutation, ResultStore.update, h]
  refine ⟨fun m₁ m₂ => rfl, ?_, ?_⟩
  · intro u p₁ p₂ rc h
    obtain ⟨s₁, hu₁, hf₁⟩ := update_ok_exists s u rc h p₁
    obtain ⟨s₂, hu₂, hf₂⟩ := update_ok_exists s₁ u _ hf₁ p₂
    exact ⟨s₁, s₂, hu₁, hu₂, hf₂⟩
  · intro u₁ u₂ p₁ p₂ hne
    cases hany₁ : s.seq.any (fun rc => rc.uuid = u₁) with
    | false =>
        cases hany₂ : s.seq.any (fun rc => rc.uuid = u₂) with
        | false =>
            simp only [hupd_err s u₁ p₁ hany₁, hupd_err s u₂ p₂ hany₂]
        | true =>
            have e₂ := hupd_ok s u₂ p₂ hany₂
            have e₂₁ : applyMutation
                { s with seq := s.seq.map fun rc =>
                    if rc.uuid = u₂ then applyPatch rc p₂ else rc }
                (StoreMutation.updateM u₁ p₁)
                = { s with seq := s.seq.map fun rc =>
                    if rc.uuid = u₂ then applyPatch rc p₂ else rc } :=
              hupd_err _ u₁ p₁ (by
                show ((s.seq.map fun rc =>
                    if rc.uuid = u₂ then applyPatch rc p₂ else rc).any
                    fun rc => rc.uuid = u₁) = false
                rw [any_uuid_update]
                exact hany₁)
            simp only [hupd_err s u₁ p₁ hany₁, e₂, e₂₁]
    | true =>
        have e₁ := hupd_ok s u₁ p₁ hany₁
        cases hany₂ : s.seq.any (fun rc => rc.uuid = u₂) with
        | false =>
            have e₁₂ : applyMutation
                { s with seq := s.seq.map fun rc =>
                    if rc.uuid = u₁ then applyPatch rc p₁ else rc }
                (StoreMutation.updateM u₂ p₂)
                = { s with seq := s.seq.map fun rc =>
                    if rc.uuid = u₁ then applyPatch rc p₁ else rc } :=
              hupd_err _ u₂ p₂ (by
                show ((s.seq.map fun rc =>
                    if rc.uuid = u₁ then applyPatch rc p₁ else rc).any
                    fun rc => rc.uuid = u₂) = false
                rw [any_uuid_update]
                exact hany₂)
            simp only [e₁, hupd_err s u₂ p₂ hany₂, e₁₂]
        | true =>
            have e₂ := hupd_ok s u₂ p₂ hany₂
            have e₁₂ : applyMutation
                { s with seq := s.seq.map fun rc =>
                    if rc.uuid = u₁ then applyPatch rc p₁ else rc }
                (StoreMutation.updateM u₂ p₂)
                = { s with seq := (s.seq.map fun rc =>
                    if rc.uuid = u₁ then applyPatch rc p₁ else rc).map fun rc =>
                    if rc.uuid = u₂ then applyPatch rc p₂ else rc } :=
              hupd_ok _ u₂ p₂ (by
                show ((s.seq.map fun rc =>
                    if rc.uuid = u₁ then applyPatch rc p₁ else rc).any
                    fun rc => rc.uuid = u₂) = true
                rw [any_uuid_update]
                exact hany₂)
            have e₂₁ : applyMutation
                { s with seq := s.seq.map fun rc =>
                    if rc.uuid = u₂ then applyPatch rc p₂ else rc }
                (StoreMutation.updateM u₁ p₁)
                = { s with seq := (s.seq.map fun rc =>
                    if rc.uuid = u₂ then applyPatch rc p₂ else rc).map fun rc =>
                    if rc.uuid = u₁ then applyPatch rc p₁ else rc } :=
              hupd_ok _ u₁ p₁ (by
                show ((s.seq.map fun rc =>
                    if rc.uuid = u₂ then applyPatch rc p₂ else rc).any
                    fun rc => rc.uuid = u₁) = true
                rw [any_uuid_update]
                exact hany₁)
            have hseq : ((s.seq.map fun rc =>
                  if rc.uuid = u₁ then applyPatch rc p₁ else rc).map fun rc =>
                  if rc.uuid = u₂ then applyPatch rc p₂ else rc)
                = ((s.seq.map fun rc =>
                  if rc.uuid = u₂ then applyPatch rc p₂ else rc).map fun rc =>
                  if rc.uuid = u₁ then applyPatch rc p₁ else rc) := by
              rw [List.map_map, List.map_map]
              refine List.map_congr_left fun rc _ => ?_
              by_cases h1 : rc.uuid = u₁
              · have h2 : ¬ rc.uuid = u₂ := by rw [h1]; exact hne
                simp [Function.comp, h1, h2, hne, Ne.symm hne]
              · by_cases h2 : rc.uuid = u₂
                · simp [Function.comp, h1, h2, hne, Ne.symm hne]
                · simp [Function.comp, h1, h2]
            simp only [e₁, e₂, e₁₂, e₂₁, hseq]

theorem resultStore_arrival_order_serialization_witness :
    applyMutation (applyMutation exStore1 (StoreMutation.updateM ("x1") patchA))
        (StoreMutation.updateM ("x2") patchB)
      = applyMutation (applyMutation exStore1 (StoreMutation.updateM ("x2") patchB))
          (StoreMutation.updateM ("x1") patchA) :=
  (resultStore_arrival_order_serialization exStore1).2.2 ("x1") ("x2")
    patchA patchB (by decide)

/-- A plugin result that already carries its own `toolName` and `uuid`. -/
def exSelfIdResult : ToolResult Nat Nat :=
  { toolName := some ("quiz"), uuid := some ("id7"), message := "carried" }

/-- The complete record matching `exSelfIdResult`. -/
def exSelfIdComplete : ToolResultComplete Nat Nat :=
  { toolName := "quiz", uuid := "id7", message := "carried" }

/-- C9: every `ToolResultComplete` is also a valid `ToolResult` —
completion only narrows `toolName` and `uuid` from optional to required and
adds no field (narrowing and forgetting are mutually inverse on the results
carrying both identifiers) — and the declared types do not prevent a
plugin's `execute` from returning a result that already carries its own
`toolName` or `uuid`. -/
theorem toolResultComplete_narrows_toolResult {T J A S : Type} :
    (∀ c : ToolResultComplete T J,
        c.toToolResult.toolName = some c.toolName
        ∧ c.toToolResult.uuid = some c.uuid
        ∧ c.toToolResult.toComplete? = some c)
    ∧ (∀ (r : ToolResult T J) (c : ToolResultComplete T J),
        r.toComplete? = some c → c.toToolResult = r)
    ∧ (∀ r : ToolResult T J,
        (r.toComplete?).isSome = true
          ↔ (r.toolName.isSome = true ∧ r.uuid.isSome = true))
    ∧ (∀ (c : ToolResultComplete T J) (ctx : ToolContext T J) (a : A),
        ∃ p : ToolPluginCore T J A S,
          p.execute ctx a = c.toToolResult
          ∧ (p.execute ctx a).toolName.isSome = true
          ∧ (p.execute ctx a).uuid.isSome = true) := by
  refine ⟨fun c => ⟨rfl, rfl, rfl⟩, ?_, ?_, ?_⟩
  · intro r c h
    obtain ⟨tn, u, msg, title, jd, ins, insr, upd, can, dat, vs⟩ := r
    cases tn with
    | none => simp [ToolResult.toComplete?] at h
    | some tn =>
        cases u with
        | none => simp [ToolResult.toComplete?] at h
        | some u =>
            simp only [ToolResult.toComplete?, Option.some.injEq] at h
            subst h
            rfl
  · intro r
    obtain ⟨tn, u, msg, title, jd, ins, insr, upd, can, dat, vs⟩ := r
    cases tn <;> cases u <;> simp [ToolResult.toComplete?]
  · intro c ctx a
    exact ⟨{ toolDefinition := { name := "t", description := "d" }
             execute := fun _ _ => c.toToolResult
             generatingMessage := "g"
             isEnabled := fun _ => true }, rfl, rfl, rfl⟩

theorem toolResultComplete_narrows_toolResult_witness :
    exSelfIdComplete.toToolResult = exSelfIdResult
    ∧ exSelfIdResult.toComplete?.isSome = true := by
  have h := toolResultComplete_narrows_toolResult
    (T := Nat) (J := Nat) (A := Nat) (S := Nat)
  exact ⟨h.2.1 exSelfIdResult exSelfIdComplete rfl,
    (h.2.2.1 exSelfIdResult).mpr ⟨rfl, rfl⟩⟩

/-- A plugin built from only the four required fields. -/
def minimalPlugin {T J A S : Type} (td : ToolDefinition)
    (exec : ToolContext T J → A → ToolResult T J) (gm : String)
    (ie : Option S → Bool) : ToolPluginCore T J A S :=
  { toolDefinition := td
    execute := exec
    generatingMessage := gm
    isEnabled := ie }

/-- C10: a plugin value providing only `toolDefinition`, `execute`,
`generatingMessage` and `isEnabled` is a complete `ToolPluginCore`; every
other field — including `waitingMessage`, `uploadMessage` and
`delayAfterExecution`, which the code declares — is optional and defaults
to absent, and such a plugin registers successfully. -/
theorem toolPluginCore_minimal_fields {T J A S : Type} (td : ToolDefinition)
    (exec : ToolContext T J → A → ToolResult T J) (gm : String)
    (ie : Option S → Bool) :
    (minimalPlugin td exec gm ie).toolDefinition = td
    ∧ (minimalPlugin td exec gm ie).execute = exec
    ∧ (minimalPlugin td exec gm ie).generatingMessage = gm
    ∧ (minimalPlugin td exec gm ie).isEnabled = ie
    ∧ (minimalPlugin td exec gm ie).waitingMessage = none
    ∧ (minimalPlugin td exec gm ie).uploadMessage = none
    ∧ (minimalPlugin td exec gm ie).delayAfterExecution = none
    ∧ (minimalPlugin td exec gm ie).systemPrompt = none
    ∧ (minimalPlugin td exec gm ie).inputHandlers = none
    ∧ (minimalPlugin td exec gm ie).configSchema = none
    ∧ (minimalPlugin td exec gm ie).samples = none
    ∧ (minimalPlugin td exec gm ie).backends = none
    ∧ ToolRegistry.register { plugins := [] } (minimalPlugin td exec gm ie)
        = Except.ok { plugins := [minimalPlugin td exec gm ie] } :=
  ⟨rfl, rfl, rfl, rfl, rfl, rfl, rfl, rfl, rfl, rfl, rfl, rfl, rfl⟩

end GuiChat
